import Mathlib

/-!
Shallow embedding of `src/src/ompl/datastructures/NearestNeighborsFLANN.h`
(class `NearestNeighborsFLANN`), the OMPL wrapper around the FLANN
nearest-neighbor library.

Modelling conventions:
* Elements `_T` become a type parameter `T` with decidable equality
  (`operator==` in the source).  The caller-supplied distance function
  (`NearestNeighbors::distFun_`, C++ `double`-valued) is modelled with an
  `Int` codomain: the code only compares distances, never does arithmetic on
  them.
* `flann::IndexParams` becomes an opaque type parameter `P`.
* The FLANN index (`flann::Index<_Dist>* index_`) is modelled through the
  backend contract the wrapper relies on: a bag of points answering exact
  k-NN queries sorted by distance (FLANN's `SearchParams` are constructed
  with `sorted = true` in this class).  The model index also records the
  distance function and the parameters it was built with (`createIndex`
  passes both), so that "which configuration built the current index" is
  observable.  `index_ == NULL` is `none`.
* `std::vector<_T> data_` is modelled as its logical contents (`data`)
  plus its capacity (`cap`).  Capacity follows the usual libstdc++ policy
  the source is written against: `reserve n` gives `max cap n`, `push_back`
  doubles (from at least 1) when full, assignment reallocates only when the
  assigned length exceeds the current capacity.
* `searchParams_.checks` is kept as a plain field (`checks`); the exact
  backend model answers queries independently of it, and `list()` restores
  it, so no operation changes it.
* Mutating operations that the claims observe for a "did a rebuild happen"
  flag (`add`) or a success flag (`remove`) return `State × Bool`.
-/

namespace FlannModel

/-- The backend FLANN index: the points it currently holds, plus the
distance function and index parameters it was built with (both are passed
to `flann::Index`'s constructor in `createIndex`). -/
structure BIndex (P T : Type) where
  pts : List T
  bdist : T → T → Int
  bparams : P

/-- State of a `NearestNeighborsFLANN<_T>` object. -/
structure NNF (P T : Type) where
  /-- logical contents of `data_` (i.e. `data_[0 .. data_.size())`) -/
  data : List T
  /-- `data_.capacity()` -/
  cap : Nat
  /-- `NearestNeighbors::distFun_` -/
  dist : T → T → Int
  /-- `params_` -/
  params : P
  /-- `searchParams_.checks` -/
  checks : Nat
  /-- `index_` (`none` = NULL pointer) -/
  index : Option (BIndex P T)

variable {P T : Type}

/-- The constructor: empty buffer, no index, `searchParams_(32, 0., true)`. -/
def init (f : T → T → Int) (p : P) : NNF P T :=
  { data := [], cap := 0, dist := f, params := p, checks := 32, index := none }

/-- `size()`: `index_ ? index_->size() : 0`. -/
def size (s : NNF P T) : Nat :=
  match s.index with
  | none => 0
  | some ix => ix.pts.length

/-- The points currently held by the backend index (empty when no index). -/
def storedPts (s : NNF P T) : List T :=
  match s.index with
  | none => []
  | some ix => ix.pts

/-- Backend `knnSearch` result order: points sorted by non-decreasing
distance to the query `x` (FLANN is asked for sorted results). -/
def sortD (d : T → T → Int) (x : T) (pts : List T) : List T :=
  List.insertionSort (fun a b => d x a ≤ d x b) pts

/-- `std::vector` capacity after `push_back` on a vector of length `len`. -/
def pushCap (len cap : Nat) : Nat :=
  if len + 1 ≤ cap then cap else max (2 * len) 1

/-- `std::vector` capacity after `reserve n`. -/
def reserveCap (cap n : Nat) : Nat := max cap n

/-- `std::vector` capacity after assigning a vector of length `len`. -/
def assignCap (cap len : Nat) : Nat := max cap len

/-- `clear()`: delete the index, `data_.clear()` (capacity retained). -/
def clearOp (s : NNF P T) : NNF P T :=
  { s with index := none, data := ([] : List T) }

/-- `createIndex(mat)`: build a fresh index over the points of `mat` with
the current distance function and the current `params_`. -/
def createIndex (s : NNF P T) (pts : List T) : NNF P T :=
  { s with index := some { pts := pts, bdist := s.dist, bparams := s.params } }

/-- `list(data)`: 0 elements when `size() == 0`; otherwise a full-store
`nearestK` anchored at `getPoint(0)` with `checks` temporarily widened
(the widened-and-restored `checks` leaves the state unchanged). -/
def listOp (s : NNF P T) : List T :=
  match s.index with
  | none => []
  | some ix =>
    match ix.pts with
    | [] => []
    | p :: _ => sortD s.dist p ix.pts

/-- `rebuildIndex(capacity)`: when an index exists, capture the contents via
`list`, `clear()`, optionally `reserve(capacity)`, then re-`add` the whole
vector.  That bulk `add` always runs its no-index branch (`clear` nulled
the index): `data_ = data; createIndex(...)` — inlined here. -/
def rebuildIndex (s : NNF P T) (capacity : Nat) : NNF P T :=
  match s.index with
  | none => s
  | some _ =>
    let pts := listOp s
    let cap1 := if capacity ≠ 0 then reserveCap s.cap capacity else s.cap
    { s with data := pts, cap := assignCap cap1 pts.length,
             index := some { pts := pts, bdist := s.dist, bparams := s.params } }

/-- `add(const _T&)`.  Returns the new state and whether the
capacity-growth rebuild was taken. -/
def addOne (s : NNF P T) (x : T) : NNF P T × Bool :=
  let rebuild := s.index.isSome && decide (s.data.length + 1 > s.cap)
  let s1 := if rebuild then rebuildIndex s (2 * s.cap) else s
  let s2 : NNF P T :=
    { s1 with data := s1.data ++ [x], cap := pushCap s1.data.length s1.cap }
  match s2.index with
  | some ix => ({ s2 with index := some { ix with pts := ix.pts ++ [x] } }, rebuild)
  | none => (createIndex s2 [x], rebuild)

/-- `add(const std::vector<_T>&)`.  In the existing-index branch the source
does `std::copy(data.begin(), data.end(), data_.begin() + oldSize)`, which
writes the batch into raw storage past the buffer's end WITHOUT updating
`data_.size()` — so `data` (the logical contents) is unchanged there while
the index receives the batch via `addPoints`. -/
def addBulk (s : NNF P T) (batch : List T) : NNF P T × Bool :=
  let oldSize := s.data.length
  let newSize := oldSize + batch.length
  let rebuild := s.index.isSome && decide (newSize > s.cap)
  let s1 := if rebuild then rebuildIndex s (max (2 * oldSize) newSize) else s
  match s1.index with
  | some ix => ({ s1 with index := some { ix with pts := ix.pts ++ batch } }, rebuild)
  | none =>
    (createIndex { s1 with data := batch, cap := assignCap s1.cap batch.length } batch,
     rebuild)

/-- `remove(const _T&)`: `false` when no index; otherwise a 1-NN query, and
only when the returned point `== data` is it removed (followed by a full
`rebuildIndex()`).  A present-but-empty index returns no neighbor and the
call leaves the store unchanged. -/
def removeOp [DecidableEq T] (s : NNF P T) (x : T) : NNF P T × Bool :=
  match s.index with
  | none => (s, false)
  | some ix =>
    match sortD s.dist x ix.pts with
    | [] => (s, false)
    | y :: _ =>
      if y = x then
        (rebuildIndex { s with index := some { ix with pts := ix.pts.erase y } } 0, true)
      else (s, false)

/-- `nearest(data)`: throws (`none`) when `size() == 0`, else the 1-NN. -/
def nearestOp (s : NNF P T) (x : T) : Option T :=
  match s.index with
  | none => none
  | some ix => (sortD s.dist x ix.pts).head?

/-- `nearestK(data, k, nbh)`: `k` capped to the number of neighbors found. -/
def nearestK (s : NNF P T) (x : T) (k : Nat) : List T :=
  match s.index with
  | none => []
  | some ix => (sortD s.dist x ix.pts).take k

/-- `nearestR(data, radius, nbh)`: all points within `radius`, sorted. -/
def nearestR (s : NNF P T) (x : T) (radius : Int) : List T :=
  match s.index with
  | none => []
  | some ix => (sortD s.dist x ix.pts).filter (fun y => decide (s.dist x y ≤ radius))

/-- `setDistanceFunction`: store the new function, then `rebuildIndex()`. -/
def setDistanceFunction (s : NNF P T) (f : T → T → Int) : NNF P T :=
  rebuildIndex { s with dist := f } 0

/-- `setIndexParams`: store the new parameters, then `rebuildIndex()`. -/
def setIndexParams (s : NNF P T) (p : P) : NNF P T :=
  rebuildIndex { s with params := p } 0

/-- An operation of the mutating API (for trace-level claims). -/
inductive NNOp (T : Type) where
  | add1 (x : T)
  | addMany (xs : List T)
  | rem (x : T)

/-- Apply one operation; the `Bool` is `remove`'s return value (`false` for
the `add` variants, whose C++ return type is `void`). -/
def applyOp [DecidableEq T] (s : NNF P T) : NNOp T → NNF P T × Bool
  | .add1 x => ((addOne s x).1, false)
  | .addMany xs => ((addBulk s xs).1, false)
  | .rem x => removeOp s x

/-- Run a list of operations; the `Nat` counts `remove` calls that
returned `true`. -/
def runOps [DecidableEq T] (s : NNF P T) : List (NNOp T) → NNF P T × Nat
  | [] => (s, 0)
  | op :: rest =>
    let r := applyOp s op
    let rr := runOps r.1 rest
    (rr.1, rr.2 + (if r.2 then 1 else 0))

/-- Number of elements added by a list of operations (bulk adds count
their batch length). -/
def addedCount : List (NNOp T) → Nat
  | [] => 0
  | .add1 _ :: rest => 1 + addedCount rest
  | .addMany xs :: rest => xs.length + addedCount rest
  | .rem _ :: rest => addedCount rest

/-! Concrete stores used by witnesses and counterexamples. -/

/-- Squared Euclidean distance on 1-D points. -/
def dsq : Int → Int → Int := fun a b => (a - b) * (a - b)

/-- A degenerate (constant-zero) caller-supplied distance function. -/
def dzero : Int → Int → Int := fun _ _ => 0

/-- A freshly constructed store. -/
def exInit : NNF Unit Int := init dsq ()

/-- After `add(4)`: buffer `[4]`, capacity 1, index over `{4}`. -/
def exOne : NNF Unit Int := (addOne exInit 4).1

/-- After `add(4)` then bulk `add([7])`: the bulk path's missing resize
leaves the buffer at `[4]` while the index holds `{4, 7}`. -/
def exBug : NNF Unit Int := (addBulk exOne [7]).1

/-- Two points at equal (constant-zero) distance from every query. -/
def exTie : NNF Unit Int := (addOne (addOne (init dzero ()) 5).1 7).1

/-- A fresh store bulk-loaded with `[1, 5, 9, 3]`. -/
def exFour : NNF Unit Int := (addBulk exInit [1, 5, 9, 3]).1

/-- A sample operation sequence: 1 + 2 adds, one successful remove. -/
def exOps : List (NNOp Int) := [.add1 4, .addMany [7, 1], .rem 7]

/-! Helper lemmas about the backend's sorted search and the internal
`list`/`rebuildIndex` operations. -/

theorem sortD_perm (d : T → T → Int) (x : T) (pts : List T) :
    List.Perm (sortD d x pts) pts :=
  List.perm_insertionSort _ pts

theorem sortD_sorted (d : T → T → Int) (x : T) (pts : List T) :
    (sortD d x pts).Pairwise (fun a b => d x a ≤ d x b) := by
  haveI : IsTotal T (fun a b => d x a ≤ d x b) := ⟨fun a b => Int.le_total _ _⟩
  haveI : IsTrans T (fun a b => d x a ≤ d x b) :=
    ⟨fun _ _ _ hab hbc => le_trans hab hbc⟩
  exact List.sorted_insertionSort _ pts

theorem sortD_nil_iff (d : T → T → Int) (x : T) (pts : List T) :
    sortD d x pts = [] ↔ pts = [] := by
  rw [← List.length_eq_zero, ← List.length_eq_zero (l := pts),
    (sortD_perm d x pts).length_eq]

theorem sortD_head_mem {d : T → T → Int} {x : T} {pts : List T} {y : T}
    {rest : List T} (h : sortD d x pts = y :: rest) : y ∈ pts := by
  have := (sortD_perm d x pts).mem_iff (a := y)
  rw [h] at this
  exact this.mp (List.mem_cons_self y rest)

theorem sortD_head_min {d : T → T → Int} {x : T} {pts : List T} {y : T}
    {rest : List T} (h : sortD d x pts = y :: rest) :
    ∀ z ∈ pts, d x y ≤ d x z := by
  intro z hz
  have hzs : z ∈ y :: rest := by
    rw [← h]
    exact ((sortD_perm d x pts).mem_iff (a := z)).mpr hz
  rcases List.mem_cons.mp hzs with hzy | hzr
  · exact hzy ▸ le_refl _
  · have hs := sortD_sorted d x pts
    rw [h] at hs
    exact List.rel_of_pairwise_cons hs hzr

theorem listOp_perm {s : NNF P T} {ix : BIndex P T} (h : s.index = some ix) :
    List.Perm (listOp s) ix.pts := by
  simp only [listOp, h]
  cases hp : ix.pts with
  | nil => simp [hp]
  | cons p r =>
    exact sortD_perm s.dist p (p :: r)

theorem storedPts_some {s : NNF P T} {ix : BIndex P T}
    (h : s.index = some ix) : storedPts s = ix.pts := by
  rw [storedPts, h]

theorem storedPts_none {s : NNF P T} (h : s.index = none) :
    storedPts s = [] := by
  rw [storedPts, h]

theorem size_eq_storedPts_length (s : NNF P T) :
    size s = (storedPts s).length := by
  rw [size, storedPts]
  cases s.index <;> rfl

theorem rebuildIndex_none {s : NNF P T} (h : s.index = none)
    (c : Nat) : rebuildIndex s c = s := by
  rw [rebuildIndex, h]

theorem rebuildIndex_some {s : NNF P T} {ix : BIndex P T}
    (h : s.index = some ix) (c : Nat) :
    rebuildIndex s c =
      { s with data := listOp s,
               cap := assignCap (if c ≠ 0 then reserveCap s.cap c else s.cap)
                        (listOp s).length,
               index := some { pts := listOp s, bdist := s.dist,
                               bparams := s.params } } := by
  rw [rebuildIndex, h]

theorem storedPts_rebuildIndex (s : NNF P T) (c : Nat) :
    List.Perm (storedPts (rebuildIndex s c)) (storedPts s) := by
  cases h : s.index with
  | none => rw [rebuildIndex_none h]
  | some ix =>
    rw [rebuildIndex_some h, storedPts_some h]
    simpa [storedPts] using listOp_perm h

theorem size_rebuildIndex (s : NNF P T) (c : Nat) :
    size (rebuildIndex s c) = size s := by
  rw [size_eq_storedPts_length, size_eq_storedPts_length]
  exact (storedPts_rebuildIndex s c).length_eq

theorem addOne_none {s : NNF P T} (h : s.index = none) (x : T) :
    addOne s x =
      ({ s with data := s.data ++ [x], cap := pushCap s.data.length s.cap,
                index := some { pts := [x], bdist := s.dist, bparams := s.params } },
       false) := by
  simp [addOne, h, createIndex]

theorem addOne_some_noRebuild {s : NNF P T} {ix : BIndex P T}
    (h : s.index = some ix) (hc : s.data.length + 1 ≤ s.cap) (x : T) :
    addOne s x =
      ({ s with data := s.data ++ [x], cap := s.cap,
                index := some { ix with pts := ix.pts ++ [x] } },
       false) := by
  have hnc : ¬ s.cap < s.data.length + 1 := Nat.not_lt.mpr hc
  simp [addOne, h, hnc, pushCap, hc]

theorem addOne_some_rebuild {s : NNF P T} {ix : BIndex P T}
    (h : s.index = some ix) (hc : s.cap < s.data.length + 1) (x : T) :
    addOne s x =
      ({ s with
          data := listOp s ++ [x],
          cap := pushCap (listOp s).length
                   (assignCap
                     (if 2 * s.cap ≠ 0 then reserveCap s.cap (2 * s.cap) else s.cap)
                     (listOp s).length),
          index := some { pts := listOp s ++ [x], bdist := s.dist,
                          bparams := s.params } },
       true) := by
  simp [addOne, h, hc, rebuildIndex_some h]

theorem addBulk_none {s : NNF P T} (h : s.index = none) (batch : List T) :
    addBulk s batch =
      ({ s with data := batch, cap := assignCap s.cap batch.length,
                index := some { pts := batch, bdist := s.dist, bparams := s.params } },
       false) := by
  simp [addBulk, h, createIndex]

theorem addBulk_some_noRebuild {s : NNF P T} {ix : BIndex P T}
    (h : s.index = some ix) (batch : List T)
    (hc : s.data.length + batch.length ≤ s.cap) :
    addBulk s batch =
      ({ s with index := some { ix with pts := ix.pts ++ batch } }, false) := by
  have hnc : ¬ s.cap < s.data.length + batch.length := Nat.not_lt.mpr hc
  simp [addBulk, h, hnc]

theorem addBulk_some_rebuild {s : NNF P T} {ix : BIndex P T}
    (h : s.index = some ix) (batch : List T)
    (hc : s.cap < s.data.length + batch.length) :
    addBulk s batch =
      ({ s with
          data := listOp s,
          cap := assignCap
                   (if max (2 * s.data.length) (s.data.length + batch.length) ≠ 0 then
                      reserveCap s.cap (max (2 * s.data.length) (s.data.length + batch.length))
                    else s.cap)
                   (listOp s).length,
          index := some { pts := listOp s ++ batch, bdist := s.dist,
                          bparams := s.params } },
       true) := by
  simp [addBulk, h, hc, rebuildIndex_some h]

theorem storedPts_addOne (s : NNF P T) (x : T) :
    List.Perm (storedPts (addOne s x).1) (storedPts s ++ [x]) := by
  cases h : s.index with
  | none => rw [addOne_none h]; simp [storedPts, h]
  | some ix =>
    by_cases hc : s.cap < s.data.length + 1
    · rw [addOne_some_rebuild h hc, storedPts_some h]
      simp only [storedPts]
      exact (listOp_perm h).append_right [x]
    · rw [addOne_some_noRebuild h (Nat.not_lt.mp hc), storedPts_some h]
      simp [storedPts]

theorem size_addOne (s : NNF P T) (x : T) :
    size (addOne s x).1 = size s + 1 := by
  rw [size_eq_storedPts_length, size_eq_storedPts_length]
  simpa using (storedPts_addOne s x).length_eq

theorem storedPts_addBulk (s : NNF P T) (batch : List T) :
    List.Perm (storedPts (addBulk s batch).1) (storedPts s ++ batch) := by
  cases h : s.index with
  | none => rw [addBulk_none h]; simp [storedPts, h]
  | some ix =>
    by_cases hc : s.cap < s.data.length + batch.length
    · rw [addBulk_some_rebuild h batch hc, storedPts_some h]
      simp only [storedPts]
      exact (listOp_perm h).append_right batch
    · rw [addBulk_some_noRebuild h batch (Nat.not_lt.mp hc), storedPts_some h]
      simp [storedPts]

theorem size_addBulk (s : NNF P T) (batch : List T) :
    size (addBulk s batch).1 = size s + batch.length := by
  rw [size_eq_storedPts_length, size_eq_storedPts_length]
  simpa using (storedPts_addBulk s batch).length_eq

theorem removeOp_true_of_strict [DecidableEq T] {s : NNF P T} {x : T}
    (hx : x ∈ storedPts s)
    (hstrict : ∀ z ∈ storedPts s, z ≠ x → s.dist x x < s.dist x z) :
    (removeOp s x).2 = true ∧ size (removeOp s x).1 + 1 = size s := by
  cases h : s.index with
  | none => rw [storedPts_none h] at hx; cases hx
  | some ix =>
    rw [storedPts_some h] at hx hstrict
    cases hs : sortD s.dist x ix.pts with
    | nil =>
      rw [(sortD_nil_iff s.dist x ix.pts).mp hs] at hx
      cases hx
    | cons y rest =>
      have hy : y = x := by
        by_contra hy
        have h1 : s.dist x x < s.dist x y :=
          hstrict y (sortD_head_mem hs) hy
        have h2 : s.dist x y ≤ s.dist x x := sortD_head_min hs x hx
        exact absurd (lt_of_lt_of_le h1 h2) (lt_irrefl _)
      subst hy
      have hmem : y ∈ ix.pts := sortD_head_mem hs
      have hpos : 1 ≤ ix.pts.length := by
        cases hp : ix.pts with
        | nil => rw [hp] at hmem; cases hmem
        | cons a t => simp [hp]
      constructor
      · simp [removeOp, h, hs]
      · have hr : (removeOp s y).1 =
            rebuildIndex { s with index := some { ix with pts := ix.pts.erase y } } 0 := by
          simp [removeOp, h, hs]
        have hsz : size (removeOp s y).1 = (ix.pts.erase y).length := by
          rw [hr, size_rebuildIndex]; rfl
        rw [hsz, List.length_erase_of_mem hmem, size, h]
        exact Nat.sub_add_cancel hpos

theorem removeOp_false_of_notMin [DecidableEq T] {s : NNF P T} {x : T}
    (hn : ¬ (x ∈ storedPts s ∧ ∀ z ∈ storedPts s, s.dist x x ≤ s.dist x z)) :
    (removeOp s x).2 = false ∧ (removeOp s x).1 = s := by
  cases h : s.index with
  | none => simp [removeOp, h]
  | some ix =>
    cases hs : sortD s.dist x ix.pts with
    | nil => simp [removeOp, h, hs]
    | cons y rest =>
      by_cases hy : y = x
      · subst hy
        exact absurd ⟨by rw [storedPts_some h]; exact sortD_head_mem hs,
          by rw [storedPts_some h]; exact fun z hz => sortD_head_min hs z hz⟩ hn
      · simp [removeOp, h, hs, hy]

theorem removeOp_size [DecidableEq T] (s : NNF P T) (x : T) :
    ((removeOp s x).2 = false ∧ (removeOp s x).1 = s) ∨
    ((removeOp s x).2 = true ∧ size (removeOp s x).1 + 1 = size s) := by
  cases h : s.index with
  | none => left; simp [removeOp, h]
  | some ix =>
    cases hs : sortD s.dist x ix.pts with
    | nil => left; simp [removeOp, h, hs]
    | cons y rest =>
      by_cases hy : y = x
      · right
        subst hy
        have hmem : y ∈ ix.pts := sortD_head_mem hs
        have hpos : 1 ≤ ix.pts.length := by
          cases hp : ix.pts with
          | nil => rw [hp] at hmem; cases hmem
          | cons a t => simp [hp]
        constructor
        · simp [removeOp, h, hs]
        · have hr : (removeOp s y).1 =
              rebuildIndex { s with index := some { ix with pts := ix.pts.erase y } } 0 := by
            simp [removeOp, h, hs]
          have hsz : size (removeOp s y).1 = (ix.pts.erase y).length := by
            rw [hr, size_rebuildIndex]; rfl
          rw [hsz, List.length_erase_of_mem hmem, size, h]
          exact Nat.sub_add_cancel hpos
      · left; simp [removeOp, h, hs, hy]

/-! The claims. -/

/-- C1: the spec's invariant says the backend index holds exactly the
elements of the buffer's logical range, preserved by every operation
including the bulk `add`.  Evaluating the code on a concrete trace —
construct, `add(4)`, bulk `add([7])` — shows the bulk path growing the
index to `{4, 7}` while the buffer's logical contents stay `[4]` (the
`std::copy` writes past `data_`'s end without a resize), so the index and
the buffer's logical range disagree. -/
theorem c1_bulk_add_desyncs_index_and_buffer :
    storedPts exBug = [4, 7] ∧ exBug.data = [4] ∧ size exBug = 2 ∧
    exBug.data.length = 1 ∧ ¬ List.Perm (storedPts exBug) exBug.data := by
  exact ⟨by decide, by decide, by decide, by decide, by decide⟩

/-- C2 (amended): `remove(x)` returns true and decrements `size()` by one
whenever some stored element equal to `x` is strictly closer to `x` than
every stored element not equal to `x`; it returns false and leaves the
store unchanged whenever no stored element equal to `x` attains the
minimum distance to `x` (in particular on an empty store).  When `x`
attains the minimum only in an exact tie with a distinct element, the
outcome depends on the backend's tie order (see the counterexample). -/
theorem c2_remove_iff_exact_nearest [DecidableEq T] (s : NNF P T) (x : T) :
    ((x ∈ storedPts s ∧ ∀ z ∈ storedPts s, z ≠ x → s.dist x x < s.dist x z) →
      (removeOp s x).2 = true ∧ size (removeOp s x).1 + 1 = size s)
    ∧ ((¬ (x ∈ storedPts s ∧ ∀ z ∈ storedPts s, s.dist x x ≤ s.dist x z)) →
      (removeOp s x).2 = false ∧ (removeOp s x).1 = s) :=
  ⟨fun hx => removeOp_true_of_strict hx.1 hx.2,
   fun hn => removeOp_false_of_notMin hn⟩

/-- C2 counterexample: with the constant-zero distance function and the
store `{5, 7}`, the element `7` is stored and attains the minimum distance
to the query `7` (everything is at distance 0), so the claim as stated
demands `remove(7) = true`; but the backend's 1-NN query returns `5`,
which is not equal to `7`, and the code returns `false`. -/
theorem c2_counterexample_tie :
    (7 ∈ storedPts exTie ∧ ∀ z ∈ storedPts exTie, exTie.dist 7 7 ≤ exTie.dist 7 z)
    ∧ (removeOp exTie 7).2 = false ∧ size (removeOp exTie 7).1 = size exTie := by
  exact ⟨⟨by decide, by decide⟩, by decide, by decide⟩

/-- C2 witness: on the store `{1, 5, 9, 3}` with squared distance,
`remove(5)` succeeds and shrinks the store; `remove(100)` fails and
leaves it untouched. -/
theorem c2_remove_witness :
    ((removeOp exFour 5).2 = true ∧ size (removeOp exFour 5).1 + 1 = size exFour)
    ∧ ((removeOp exFour 100).2 = false ∧ (removeOp exFour 100).1 = exFour) :=
  ⟨(c2_remove_iff_exact_nearest exFour 5).1 ⟨by decide, by decide⟩,
   (c2_remove_iff_exact_nearest exFour 100).2 (by decide)⟩

/-- C3: `nearest` fails (throws, modelled as `none`) exactly when
`size() = 0`, while `nearestK`, `nearestR` and `list` on an empty store
return the empty sequence. -/
theorem c3_nearest_error_iff_empty (s : NNF P T) (x : T) (k : Nat) (r : Int) :
    (nearestOp s x = none ↔ size s = 0)
    ∧ (size s = 0 → nearestK s x k = [] ∧ nearestR s x r = [] ∧ listOp s = []) := by
  cases h : s.index with
  | none =>
    constructor
    · simp [nearestOp, h, size]
    · intro _
      simp [nearestK, nearestR, listOp, h]
  | some ix =>
    have hsz : size s = ix.pts.length := by rw [size, h]
    constructor
    · simp only [nearestOp, h]
      rw [List.head?_eq_none_iff, sortD_nil_iff, hsz,
        ← List.length_eq_zero (l := ix.pts)]
    · intro h0
      have hp : ix.pts = [] := by
        rw [hsz] at h0
        exact List.length_eq_zero.mp h0
      simp [nearestK, nearestR, listOp, h, hp, sortD]

/-- C3 witness: on a fresh (empty) store the three sequence queries
return the empty sequence, and on a non-empty store `nearest` does not
fail. -/
theorem c3_witness :
    (nearestK exInit 0 5 = [] ∧ nearestR exInit 0 3 = [] ∧ listOp exInit = [])
    ∧ nearestOp exFour 4 ≠ none :=
  ⟨(c3_nearest_error_iff_empty exInit 0 5 3).2 (by decide),
   fun hn => absurd ((c3_nearest_error_iff_empty exFour 4 5 3).1.mp hn)
     (by decide)⟩

/-- C8: `list()` returns exactly the currently stored elements — each
exactly once, as a permutation of the backend index's contents (which is
the empty sequence on an empty store).  The model backend is exact, so
the approximation setting `checks` plays no role. -/
theorem c8_list_is_exact_enumeration (s : NNF P T) :
    List.Perm (listOp s) (storedPts s) := by
  cases h : s.index with
  | none => simp [listOp, storedPts, h]
  | some ix =>
    rw [storedPts_some h]
    exact listOp_perm h

/-- C6: `nearestK(x, k)` returns stored elements only, in non-decreasing
distance from `x` under the active distance function; when `k` is at
least `size()` it returns exactly all stored elements (a permutation of
them), and on an empty store it returns the empty sequence. -/
theorem c6_nearestK_sorted_capped (s : NNF P T) (x : T) (k : Nat) :
    (∀ y ∈ nearestK s x k, y ∈ storedPts s)
    ∧ (nearestK s x k).Pairwise (fun a b => s.dist x a ≤ s.dist x b)
    ∧ (size s ≤ k → List.Perm (nearestK s x k) (storedPts s))
    ∧ (size s = 0 → nearestK s x k = []) := by
  cases h : s.index with
  | none =>
    refine ⟨?_, ?_, ?_, ?_⟩ <;> simp [nearestK, storedPts, h]
  | some ix =>
    have hK : nearestK s x k = (sortD s.dist x ix.pts).take k := by
      rw [nearestK, h]
    refine ⟨?_, ?_, ?_, ?_⟩
    · intro y hy
      rw [hK] at hy
      rw [storedPts_some h]
      exact ((sortD_perm s.dist x ix.pts).mem_iff).mp (List.take_subset k _ hy)
    · rw [hK]
      exact (sortD_sorted s.dist x ix.pts).sublist (List.take_sublist k _)
    · intro hk
      rw [hK, storedPts_some h]
      have hlen : (sortD s.dist x ix.pts).length ≤ k := by
        rw [(sortD_perm s.dist x ix.pts).length_eq]
        rw [size, h] at hk
        exact hk
      rw [List.take_of_length_le hlen]
      exact sortD_perm s.dist x ix.pts
    · intro h0
      rw [size, h] at h0
      rw [hK, List.length_eq_zero.mp h0]
      simp [sortD]

/-- C6 witness: on the store `{1, 5, 9, 3}` with `k = 9 > size()` the
result is exactly all stored elements; on the empty store it is empty. -/
theorem c6_witness :
    List.Perm (nearestK exFour 4 9) (storedPts exFour)
    ∧ nearestK exInit 4 3 = [] :=
  ⟨(c6_nearestK_sorted_capped exFour 4 9).2.2.1 (by decide),
   (c6_nearestK_sorted_capped exInit 4 3).2.2.2 (by decide)⟩

/-- C7: `size()` is the backend index's count (0 when no index is
present), and over every sequence of adds and removes the final size plus
the number of successful removes equals the starting size plus the number
of elements added. -/
theorem c7_size_matches_trace [DecidableEq T] (s : NNF P T)
    (ops : List (NNOp T)) :
    (s.index = none → size s = 0)
    ∧ size (runOps s ops).1 + (runOps s ops).2 = size s + addedCount ops := by
  constructor
  · intro h
    rw [size, h]
  · induction ops generalizing s with
    | nil => simp [runOps, addedCount]
    | cons op rest ih =>
      cases op with
      | add1 x =>
        simp only [runOps, applyOp, addedCount, if_neg Bool.false_ne_true]
        have hih := ih (addOne s x).1
        rw [size_addOne] at hih
        omega
      | addMany xs =>
        simp only [runOps, applyOp, addedCount, if_neg Bool.false_ne_true]
        have hih := ih (addBulk s xs).1
        rw [size_addBulk] at hih
        omega
      | rem x =>
        rcases removeOp_size s x with ⟨hf, hst⟩ | ⟨ht, hsz⟩
        · simp only [runOps, applyOp, addedCount, hf, hst,
            if_neg Bool.false_ne_true]
          have hih := ih s
          omega
        · simp only [runOps, applyOp, addedCount, ht, eq_self_iff_true,
            if_true]
          have hih := ih (removeOp s x).1
          omega

/-- C7 witness: running `add(4); add([7, 1]); remove(7)` from a fresh
store, the final size plus the successful-remove count equals the number
of elements added. -/
theorem c7_witness :
    (size (runOps exInit exOps).1 + (runOps exInit exOps).2
      = size exInit + addedCount exOps)
    ∧ size exInit = 0 :=
  ⟨(c7_size_matches_trace exInit exOps).2,
   (c7_size_matches_trace exInit []).1 rfl⟩

/-- C9: on a store with an index, `setDistanceFunction` and
`setIndexParams` rebuild the index immediately, so the resulting index is
built with the new distance function (resp. the new parameters) over the
same points; on a store with no index they only record the new value and
perform no rebuild. -/
theorem c9_setters_rebuild (s : NNF P T) (f : T → T → Int) (p : P) :
    (s.index = none →
      setDistanceFunction s f = { s with dist := f }
      ∧ setIndexParams s p = { s with params := p })
    ∧ (∀ ix, s.index = some ix →
      (∃ ix2, (setDistanceFunction s f).index = some ix2 ∧ ix2.bdist = f
        ∧ ix2.bparams = s.params ∧ List.Perm ix2.pts ix.pts)
      ∧ (∃ ix3, (setIndexParams s p).index = some ix3 ∧ ix3.bparams = p
        ∧ ix3.bdist = s.dist ∧ List.Perm ix3.pts ix.pts)) := by
  constructor
  · intro h
    constructor
    · exact rebuildIndex_none (s := { s with dist := f }) h 0
    · exact rebuildIndex_none (s := { s with params := p }) h 0
  · intro ix h
    have hf : ({ s with dist := f } : NNF P T).index = some ix := h
    have hp : ({ s with params := p } : NNF P T).index = some ix := h
    constructor
    · refine ⟨⟨listOp ({ s with dist := f } : NNF P T), f, s.params⟩,
        ?_, rfl, rfl, ?_⟩
      · rw [setDistanceFunction, rebuildIndex_some hf]
      · exact listOp_perm hf
    · refine ⟨⟨listOp ({ s with params := p } : NNF P T), s.dist, p⟩,
        ?_, rfl, rfl, ?_⟩
      · rw [setIndexParams, rebuildIndex_some hp]
      · exact listOp_perm hp

/-- C9 witness: with no index the setters only store the new value; with
an index present the rebuilt index carries the new distance function. -/
theorem c9_witness :
    (setDistanceFunction exInit dzero = { exInit with dist := dzero })
    ∧ (∃ ix2, (setDistanceFunction exOne dzero).index = some ix2
        ∧ ix2.bdist = dzero ∧ ix2.bparams = exOne.params
        ∧ List.Perm ix2.pts [4]) :=
  ⟨((c9_setters_rebuild exInit dzero ()).1 rfl).1,
   ((c9_setters_rebuild exOne dzero ()).2
      { pts := [4], bdist := dsq, bparams := () } rfl).1⟩

/-- C4: on a well-formed store (index count matches the buffer's logical
length, length within capacity), the single-element `add` rebuilds iff an
index exists and the length would exceed the capacity; the rebuild leaves
capacity `max(2 × old capacity, length + 1)` (twice the old capacity
unless that is too small to accommodate) and ends with the previous
contents plus the new element; without a rebuild the element is appended
to buffer and index with capacity unchanged. -/
theorem c4_single_add_growth (s : NNF P T) (x : T)
    (h1 : s.data.length ≤ s.cap)
    (h2 : s.index.isSome = true → size s = s.data.length) :
    ((addOne s x).2 = true ↔ s.index.isSome = true ∧ s.cap < s.data.length + 1)
    ∧ ((addOne s x).2 = true →
        (addOne s x).1.cap = max (2 * s.cap) (s.data.length + 1)
        ∧ List.Perm (storedPts (addOne s x).1) (storedPts s ++ [x]))
    ∧ ((addOne s x).2 = false → s.index.isSome = true →
        (addOne s x).1.data = s.data ++ [x] ∧ (addOne s x).1.cap = s.cap
        ∧ storedPts (addOne s x).1 = storedPts s ++ [x]) := by
  cases h : s.index with
  | none =>
    rw [addOne_none h]
    refine ⟨by simp [h], by simp, ?_⟩
    intro _ hsome
    simp at hsome
  | some ix =>
    have hsome : s.index.isSome = true := by rw [h]; rfl
    have hlen : (listOp s).length = s.data.length := by
      rw [(listOp_perm h).length_eq]
      have hsz := h2 hsome
      rw [size, h] at hsz
      exact hsz
    by_cases hc : s.cap < s.data.length + 1
    · rw [addOne_some_rebuild h hc]
      refine ⟨by simp [hsome, hc], ?_, by simp⟩
      intro _
      constructor
      · have hlc : s.data.length = s.cap :=
          Nat.le_antisymm h1 (Nat.lt_succ_iff.mp hc)
        rw [hlen, hlc]
        simp only [pushCap, assignCap, reserveCap]
        split_ifs <;> omega
      · rw [storedPts_some h]
        simp only [storedPts]
        exact (listOp_perm h).append_right [x]
    · rw [addOne_some_noRebuild h (Nat.not_lt.mp hc)]
      refine ⟨by simp [hc], by simp, ?_⟩
      intro _ _
      rw [storedPts_some h]
      exact ⟨rfl, rfl, by simp [storedPts]⟩

/-- C4 witness: a one-element store at full capacity 1 rebuilds on the
next `add`; capacity becomes `max(2 × 1, 2) = 2` and the store holds the
old element plus the new one. -/
theorem c4_witness :
    (addOne exOne 9).1.cap = max (2 * exOne.cap) (exOne.data.length + 1)
    ∧ List.Perm (storedPts (addOne exOne 9).1) (storedPts exOne ++ [9]) :=
  (c4_single_add_growth exOne 9 (by decide) (by decide)).2.1 (by decide)

/-- C5: on a well-formed store, the bulk `add` of a batch of length `b`
over logical length `n` rebuilds iff an index exists and `n + b` exceeds
the capacity; the rebuild requests capacity `max(2 × n, n + b)` (which is
the resulting capacity); and in every case the stored contents afterwards
are the previous contents plus the whole batch. -/
theorem c5_bulk_add_growth (s : NNF P T) (batch : List T)
    (h1 : s.data.length ≤ s.cap)
    (h2 : s.index.isSome = true → size s = s.data.length) :
    ((addBulk s batch).2 = true ↔
      s.index.isSome = true ∧ s.cap < s.data.length + batch.length)
    ∧ ((addBulk s batch).2 = true →
        (addBulk s batch).1.cap
          = max (2 * s.data.length) (s.data.length + batch.length))
    ∧ List.Perm (storedPts (addBulk s batch).1) (storedPts s ++ batch) := by
  refine ⟨?_, ?_, storedPts_addBulk s batch⟩
  · cases h : s.index with
    | none =>
      rw [addBulk_none h]
      simp [h]
    | some ix =>
      have hsome : s.index.isSome = true := by rw [h]; rfl
      by_cases hc : s.cap < s.data.length + batch.length
      · rw [addBulk_some_rebuild h batch hc]
        simp [hsome, hc]
      · rw [addBulk_some_noRebuild h batch (Nat.not_lt.mp hc)]
        simp [hc]
  · intro hflag
    cases h : s.index with
    | none =>
      rw [addBulk_none h] at hflag
      simp at hflag
    | some ix =>
      have hsome : s.index.isSome = true := by rw [h]; rfl
      have hlen : (listOp s).length = s.data.length := by
        rw [(listOp_perm h).length_eq]
        have hsz := h2 hsome
        rw [size, h] at hsz
        exact hsz
      by_cases hc : s.cap < s.data.length + batch.length
      · rw [addBulk_some_rebuild h batch hc]
        simp only [assignCap, reserveCap]
        rw [hlen]
        split_ifs <;> omega
      · rw [addBulk_some_noRebuild h batch (Nat.not_lt.mp hc)] at hflag
        simp at hflag

/-- C5 witness: bulk-adding `[7, 1]` to a one-element store of capacity 1
rebuilds with requested capacity `max(2 × 1, 1 + 2) = 3`, and the store
then holds the old element and the batch. -/
theorem c5_witness :
    (addBulk exOne [7, 1]).1.cap
      = max (2 * exOne.data.length) (exOne.data.length + 2)
    ∧ List.Perm (storedPts (addBulk exOne [7, 1]).1) (storedPts exOne ++ [7, 1]) :=
  ⟨(c5_bulk_add_growth exOne [7, 1] (by decide) (by decide)).2.1 (by decide),
   (c5_bulk_add_growth exOne [7, 1] (by decide) (by decide)).2.2⟩

/-- C10: `clear()` releases the index and empties the buffer's logical
contents, and leaves the capacity, the index parameters, the search
parameters and the distance function unchanged; afterwards `size()` is 0
and `list()` is empty. -/
theorem c10_clear_frame (s : NNF P T) :
    (clearOp s).index = none ∧ (clearOp s).data = ([] : List T)
    ∧ (clearOp s).cap = s.cap ∧ (clearOp s).params = s.params
    ∧ (clearOp s).checks = s.checks ∧ (clearOp s).dist = s.dist
    ∧ size (clearOp s) = 0 ∧ listOp (clearOp s) = [] :=
  ⟨rfl, rfl, rfl, rfl, rfl, rfl, rfl, rfl⟩

end FlannModel
